import Mathlib

/-!
Verification of the Redmine attachment downloader/deleter core
(`src/redmine_client.py`, `src/redmine_browser_client.py`,
`scripts/donwload_attachments.py`, `scripts/delete_attachments.py`).

The Python source is shallowly embedded: network and browser effects are
abstracted into outcome functions (one per attempt / per request), sleeps and
timeouts are recorded in explicit traces, and the filesystem is a list of
existing file names.  Every definition mirrors the control flow of the named
Python function.
-/

namespace RedmineVerif

/-! ## Environment settings (`get_timeout_settings` / `get_retry_settings`) -/

/-- Environment-variable derived settings used by `redmine_client.py`:
`REDMINE_RETRY_COUNT`, `REDMINE_RETRY_INTERVAL`, `REDMINE_BASE_TIMEOUT`,
`REDMINE_TIMEOUT_INCREMENT` (already parsed to numbers; the string parsing is
out of scope). -/
structure Env where
  retry_count : Nat
  retry_interval : Rat
  base_timeout : Nat
  timeout_increment : Nat

/-- Default settings from the source: retry count 3, interval 5.0 s,
base timeout 15 s, increment 15 s. -/
def defaultEnv : Env := ⟨3, 5, 15, 15⟩

/-! ## Retry loop (`RedmineClient._make_request` and `RedmineAttachment.download`)

Both functions contain the identical loop
`for attempt in range(retry_count + 1)` computing
`current_timeout = base_timeout + attempt * timeout_increment`, returning on
the first success, sleeping `retry_interval` between a failed attempt and the
next, and failing after the last attempt.  The two `except` clauses
(`Timeout` and the generic one) have identical control flow, differing only
in the log text, and are kept as two distinct outcome constructors. -/

/-- Outcome of one attempt of a retried operation: success carrying a value,
a timeout exception, or a generic request failure. -/
inductive AttemptOutcome (α : Type) where
  | ok (a : α)
  | timeout
  | failure
deriving DecidableEq

/-- Observable trace of a retried operation: the timeout passed to each
attempt, in order, and the duration of each sleep taken between attempts. -/
structure RetryTrace where
  timeouts : List Nat
  sleeps : List Rat
deriving DecidableEq

/-- Body of the retry loop, recursing on the number of remaining retries
(`remaining = retry_count - attempt`); `attempt` is the current 0-based
attempt index.  Mirrors the loop of `_make_request` lines 429-471 and of
`RedmineAttachment.download` lines 100-174. -/
def runRetryFrom {α : Type} (B T : Nat) (interval : Rat)
    (out : Nat → AttemptOutcome α) : Nat → Nat → RetryTrace × Option α
  | 0, attempt =>
    match out attempt with
    | .ok a => (⟨[B + attempt * T], []⟩, some a)
    | .timeout => (⟨[B + attempt * T], []⟩, none)
    | .failure => (⟨[B + attempt * T], []⟩, none)
  | remaining + 1, attempt =>
    match out attempt with
    | .ok a => (⟨[B + attempt * T], []⟩, some a)
    | .timeout =>
      (⟨(B + attempt * T) ::
          (runRetryFrom B T interval out remaining (attempt + 1)).1.timeouts,
        interval ::
          (runRetryFrom B T interval out remaining (attempt + 1)).1.sleeps⟩,
        (runRetryFrom B T interval out remaining (attempt + 1)).2)
    | .failure =>
      (⟨(B + attempt * T) ::
          (runRetryFrom B T interval out remaining (attempt + 1)).1.timeouts,
        interval ::
          (runRetryFrom B T interval out remaining (attempt + 1)).1.sleeps⟩,
        (runRetryFrom B T interval out remaining (attempt + 1)).2)

/-- The whole retry-wrapped operation: `retry_count` retries after the first
attempt, so attempts are numbered `0 .. retry_count`. -/
def withRetry {α : Type} (retry_count B T : Nat) (interval : Rat)
    (out : Nat → AttemptOutcome α) : RetryTrace × Option α :=
  runRetryFrom B T interval out retry_count 0

/-! ## `RedmineClient._make_request` and `RedmineAttachment.download` -/

/-- Attachment metadata parsed from one list-page entry
(`RedmineAttachment.__init__`; only the fields the verified claims use). -/
structure RAttachmentData where
  filename : String
deriving DecidableEq

/-- Ticket data parsed from one list-page entry (`RedmineIssue.__init__`). -/
structure RIssueData where
  id : Nat
  subject : String
  attachments : List RAttachmentData
deriving DecidableEq

/-- JSON payload of a successful `/issues.json` response
(`data.get("issues", [])`). -/
structure ApiData where
  issues : List RIssueData
deriving DecidableEq

/-- Embedding of `RedmineClient._make_request`: the retry loop around `session.get`,
with retry and timeout settings read from the environment.  `none` in the
second component models the final `raise` after the retries are exhausted. -/
def RedmineClient_makeRequest (env : Env) (out : Nat → AttemptOutcome ApiData) :
    RetryTrace × Option ApiData :=
  withRetry env.retry_count env.base_timeout env.timeout_increment
    env.retry_interval out

/-- Embedding of `RedmineAttachment.download`: returns `False` when `content_url` is
empty; otherwise it *overwrites* its `retry_count` / `retry_interval`
parameters with `get_retry_settings()` (line 95 of `redmine_client.py`) and
runs the same retry loop, returning a Bool instead of raising. -/
def RedmineAttachment_download (env : Env) (content_url : String)
    (retry_count : Nat) (retry_interval : Rat)
    (out : Nat → AttemptOutcome Unit) : RetryTrace × Bool :=
  if content_url = "" then (⟨[], []⟩, false)
  else
    let r := withRetry env.retry_count env.base_timeout env.timeout_increment
      env.retry_interval out
    (r.1, r.2.isSome)

/-! ### Retry loop lemmas -/

/-- The attempt at absolute index `attempt + j` is the `j`-th attempt made by
`runRetryFrom _ _ _ _ remaining attempt`; its timeout is `B + (attempt+j)*T`. -/
theorem runRetryFrom_timeouts {α : Type} (B T : Nat) (interval : Rat)
    (out : Nat → AttemptOutcome α) :
    ∀ remaining attempt,
      (runRetryFrom B T interval out remaining attempt).1.timeouts =
        (List.range
          (runRetryFrom B T interval out remaining attempt).1.timeouts.length).map
          (fun j => B + (attempt + j) * T) := by
  intro remaining
  induction remaining with
  | zero =>
    intro attempt
    cases h : out attempt <;>
      simp [runRetryFrom, h, List.range_succ, List.range_zero]
  | succ r ih =>
    intro attempt
    cases h : out attempt
    · simp [runRetryFrom, h, List.range_succ, List.range_zero]
    · simp only [runRetryFrom, h, List.length_cons, List.range_succ_eq_map,
        List.map_cons, List.map_map]
      refine List.cons_eq_cons.mpr ⟨by simp, ?_⟩
      conv_lhs => rw [ih (attempt + 1)]
      refine List.map_congr_left ?_
      intro j hj
      simp only [Function.comp_apply, Nat.succ_eq_add_one]
      ring
    · simp only [runRetryFrom, h, List.length_cons, List.range_succ_eq_map,
        List.map_cons, List.map_map]
      refine List.cons_eq_cons.mpr ⟨by simp, ?_⟩
      conv_lhs => rw [ih (attempt + 1)]
      refine List.map_congr_left ?_
      intro j hj
      simp only [Function.comp_apply, Nat.succ_eq_add_one]
      ring

/-- Number of attempts is at most `remaining + 1`. -/
theorem runRetryFrom_length_le {α : Type} (B T : Nat) (interval : Rat)
    (out : Nat → AttemptOutcome α) :
    ∀ remaining attempt,
      (runRetryFrom B T interval out remaining attempt).1.timeouts.length ≤
        remaining + 1 := by
  intro remaining
  induction remaining with
  | zero => intro attempt; cases h : out attempt <;> simp [runRetryFrom, h]
  | succ r ih =>
    intro attempt
    cases h : out attempt <;> simp [runRetryFrom, h]
    · exact ih (attempt + 1)
    · exact ih (attempt + 1)

/-- Every sleep taken has the configured duration, and there is exactly one
sleep between consecutive attempts. -/
theorem runRetryFrom_sleeps {α : Type} (B T : Nat) (interval : Rat)
    (out : Nat → AttemptOutcome α) :
    ∀ remaining attempt,
      (runRetryFrom B T interval out remaining attempt).1.sleeps =
        List.replicate
          ((runRetryFrom B T interval out remaining attempt).1.timeouts.length - 1)
          interval := by
  intro remaining
  induction remaining with
  | zero => intro attempt; cases h : out attempt <;> simp [runRetryFrom, h]
  | succ r ih =>
    intro attempt
    have h1 :
        1 ≤ (runRetryFrom B T interval out r (attempt + 1)).1.timeouts.length := by
      cases h2 : out (attempt + 1) <;> cases r <;> simp [runRetryFrom, h2]
    obtain ⟨m, hm⟩ :
        ∃ m, (runRetryFrom B T interval out r (attempt + 1)).1.timeouts.length
          = m + 1 := ⟨_, (Nat.succ_pred_eq_of_pos h1).symm⟩
    cases h : out attempt <;>
      simp [runRetryFrom, h, ih (attempt + 1), hm, List.replicate_succ]

/-- Whether an attempt outcome is a success. -/
def AttemptOutcome.succeeds {α : Type} : AttemptOutcome α → Bool
  | .ok _ => true
  | .timeout => false
  | .failure => false

theorem runRetryFrom_success {α : Type} (B T : Nat) (interval : Rat)
    (out : Nat → AttemptOutcome α) :
    ∀ k remaining attempt (a : α), k ≤ remaining →
      (∀ j, j < k → (out (attempt + j)).succeeds = false) →
      out (attempt + k) = .ok a →
      (runRetryFrom B T interval out remaining attempt).2 = some a ∧
      (runRetryFrom B T interval out remaining attempt).1.timeouts.length
        = k + 1 := by
  intro k
  induction k with
  | zero =>
    intro remaining attempt a _ _ hk
    simp only [Nat.add_zero] at hk
    cases remaining <;> simp [runRetryFrom, hk]
  | succ n ih =>
    intro remaining attempt a hle hfail hk
    obtain ⟨r, rfl⟩ : ∃ r, remaining = r + 1 :=
      ⟨remaining - 1, by omega⟩
    have h0 : (out attempt).succeeds = false := by
      have := hfail 0 (Nat.succ_pos n)
      simpa using this
    have hrec := ih r (attempt + 1) a (by omega)
      (fun j hj => by
        have := hfail (j + 1) (by omega)
        simpa [Nat.add_assoc, Nat.add_comm 1 j] using this)
      (by
        have : attempt + 1 + n = attempt + (n + 1) := by omega
        rw [this]; exact hk)
    cases h : out attempt
    · rw [h] at h0; simp [AttemptOutcome.succeeds] at h0
    · simp only [runRetryFrom, h, List.length_cons]
      exact ⟨hrec.1, by rw [hrec.2]⟩
    · simp only [runRetryFrom, h, List.length_cons]
      exact ⟨hrec.1, by rw [hrec.2]⟩

theorem runRetryFrom_allFail {α : Type} (B T : Nat) (interval : Rat)
    (out : Nat → AttemptOutcome α) :
    ∀ remaining attempt,
      (∀ j, j ≤ remaining → (out (attempt + j)).succeeds = false) →
      (runRetryFrom B T interval out remaining attempt).2 = none ∧
      (runRetryFrom B T interval out remaining attempt).1.timeouts.length
        = remaining + 1 := by
  intro remaining
  induction remaining with
  | zero =>
    intro attempt hfail
    have h0 : (out attempt).succeeds = false := by
      have := hfail 0 (Nat.le_refl 0)
      simpa using this
    cases h : out attempt
    · rw [h] at h0; simp [AttemptOutcome.succeeds] at h0
    · simp [runRetryFrom, h]
    · simp [runRetryFrom, h]
  | succ r ih =>
    intro attempt hfail
    have h0 : (out attempt).succeeds = false := by
      have := hfail 0 (Nat.zero_le _)
      simpa using this
    have hrec := ih (attempt + 1) (fun j hj => by
      have := hfail (j + 1) (by omega)
      simpa [Nat.add_assoc, Nat.add_comm 1 j] using this)
    cases h : out attempt
    · rw [h] at h0; simp [AttemptOutcome.succeeds] at h0
    · simp only [runRetryFrom, h, List.length_cons]
      exact ⟨hrec.1, by rw [hrec.2]⟩
    · simp only [runRetryFrom, h, List.length_cons]
      exact ⟨hrec.1, by rw [hrec.2]⟩

theorem runRetryFrom_none_allFail {α : Type} (B T : Nat) (interval : Rat)
    (out : Nat → AttemptOutcome α) :
    ∀ remaining attempt,
      (runRetryFrom B T interval out remaining attempt).2 = none →
      ∀ j, j ≤ remaining → (out (attempt + j)).succeeds = false := by
  intro remaining
  induction remaining with
  | zero =>
    intro attempt hnone j hj
    interval_cases j
    cases h : out attempt <;> simp [AttemptOutcome.succeeds, h] <;>
      simp [runRetryFrom, h] at hnone
  | succ r ih =>
    intro attempt hnone j hj
    cases h : out attempt
    · simp [runRetryFrom, h] at hnone
    · cases j with
      | zero => simp [AttemptOutcome.succeeds, h]
      | succ n =>
        have := ih (attempt + 1)
          (by simpa [runRetryFrom, h] using hnone) n (by omega)
        simpa [Nat.add_assoc, Nat.add_comm 1 n] using this
    · cases j with
      | zero => simp [AttemptOutcome.succeeds, h]
      | succ n =>
        have := ih (attempt + 1)
          (by simpa [runRetryFrom, h] using hnone) n (by omega)
        simpa [Nat.add_assoc, Nat.add_comm 1 n] using this

/-- C1: every retry-wrapped operation (the API list request
`RedmineClient._make_request` and the attachment download
`RedmineAttachment.download`) with retry count R, base timeout B and
increment T performs at most R+1 attempts; attempt i (0-based) uses timeout
exactly B + i*T; it returns success immediately after the first successful
attempt without further attempts or sleeps; between failed attempts it
sleeps exactly the configured retry interval; and it fails only after all
R+1 attempts failed.  With R=2, B=15, T=15 the attempt timeouts are
15, 30, 45 in order. -/
theorem C1_retry_policy (env : Env) (url : String) (rc : Nat) (ri : Rat)
    (outA : Nat → AttemptOutcome ApiData) (outD : Nat → AttemptOutcome Unit)
    (hurl : url ≠ "") :
    RedmineClient_makeRequest env outA =
      withRetry env.retry_count env.base_timeout env.timeout_increment
        env.retry_interval outA
    ∧ RedmineAttachment_download env url rc ri outD =
      ((withRetry env.retry_count env.base_timeout env.timeout_increment
          env.retry_interval outD).1,
        (withRetry env.retry_count env.base_timeout env.timeout_increment
          env.retry_interval outD).2.isSome)
    ∧ (∀ (α : Type) (R B T : Nat) (interval : Rat)
        (out : Nat → AttemptOutcome α),
        (withRetry R B T interval out).1.timeouts.length ≤ R + 1 ∧
        (withRetry R B T interval out).1.timeouts =
          (List.range (withRetry R B T interval out).1.timeouts.length).map
            (fun i => B + i * T) ∧
        (withRetry R B T interval out).1.sleeps =
          List.replicate
            ((withRetry R B T interval out).1.timeouts.length - 1) interval ∧
        (∀ k a, k ≤ R → (∀ j, j < k → (out j).succeeds = false) →
          out k = .ok a →
          (withRetry R B T interval out).2 = some a ∧
          (withRetry R B T interval out).1.timeouts.length = k + 1) ∧
        ((withRetry R B T interval out).2 = none ↔
          ∀ j, j ≤ R → (out j).succeeds = false) ∧
        ((withRetry R B T interval out).2 = none →
          (withRetry R B T interval out).1.timeouts.length = R + 1))
    ∧ (∀ (interval : Rat) (out : Nat → AttemptOutcome Unit),
        (∀ j, j ≤ 2 → (out j).succeeds = false) →
        (withRetry 2 15 15 interval out).1.timeouts = [15, 30, 45]) := by
  refine ⟨rfl, by simp [RedmineAttachment_download, hurl, withRetry], ?_, ?_⟩
  · intro α R B T interval out
    refine ⟨runRetryFrom_length_le B T interval out R 0, ?_, ?_, ?_, ?_, ?_⟩
    · have h := runRetryFrom_timeouts B T interval out R 0
      simpa [withRetry] using h
    · have h := runRetryFrom_sleeps B T interval out R 0
      simpa [withRetry] using h
    · intro k a hk hfail hok
      have h := runRetryFrom_success B T interval out k R 0 a hk
        (fun j hj => by simpa using hfail j hj) (by simpa using hok)
      exact h
    · constructor
      · intro hnone j hj
        have := runRetryFrom_none_allFail B T interval out R 0 hnone j hj
        simpa using this
      · intro hfail
        exact (runRetryFrom_allFail B T interval out R 0
          (fun j hj => by simpa using hfail j hj)).1
    · intro hnone
      exact (runRetryFrom_allFail B T interval out R 0
        (fun j hj => by
          have := runRetryFrom_none_allFail B T interval out R 0 hnone j hj
          simpa using this)).2
  · intro interval out hfail
    have hlen := (runRetryFrom_allFail 15 15 interval out 2 0
      (fun j hj => by simpa using hfail j hj)).2
    have h := runRetryFrom_timeouts 15 15 interval out 2 0
    rw [withRetry, h, hlen]
    rfl

theorem C1_retry_policy_witness :
    ("u" : String) ≠ "" ∧
    (withRetry 2 15 15 5
      (fun _ => (AttemptOutcome.timeout : AttemptOutcome Unit))).1.timeouts
      = [15, 30, 45] := by
  refine ⟨by decide, ?_⟩
  exact (C1_retry_policy defaultEnv "u" 3 5 (fun _ => .timeout)
    (fun _ => .timeout) (by decide)).2.2.2 5 (fun _ => .timeout)
    (fun j _ => rfl)

/-- C10: the `retry_count` and `retry_interval` parameters of
`RedmineAttachment.download` have no effect: the method overwrites both with
`get_retry_settings()` (environment values) before the loop, so for a fixed
environment two calls differing only in those two arguments perform the same
attempts, timeouts, sleeps, and return the same result — even though
`RedmineIssue.download_attachments` passes explicitly configured values. -/
theorem C10_download_retry_params_ignored (env : Env) (url : String)
    (out : Nat → AttemptOutcome Unit) (rc₁ rc₂ : Nat) (ri₁ ri₂ : Rat) :
    RedmineAttachment_download env url rc₁ ri₁ out =
      RedmineAttachment_download env url rc₂ ri₂ out := rfl

/-! ## `RedmineClient.get_issues` and the pagination loops

`get_issues` (redmine_client.py lines 473-520) wraps `_make_request` in a
`try`/`except` whose handler returns an *empty* `RedmineIssueList` — it never
lets an exception escape.  The pagination loops of
`scripts/donwload_attachments.py::download_attachments` and
`scripts/delete_attachments.py::get_issues_with_attachments` share the same
skeleton (range check, fetch, empty-page break, process page, advance offset,
short-page break, inter-request sleep); it is embedded once, parametrised by
the page-processing step.  `fuel` bounds the number of iterations of the
source's unbounded `while True`; `done = false` marks fuel exhaustion. -/

/-- Embedding of `RedmineClient.get_issues`: calls `_make_request`; on any exception the
handler logs and returns an empty list, so the `Except` error case is never
produced. -/
def RedmineClient_get_issues (env : Env) (out : Nat → AttemptOutcome ApiData) :
    Except Unit (List RIssueData) :=
  match (RedmineClient_makeRequest env out).2 with
  | some data => .ok data.issues
  | none => .ok []

/-- Result of a pagination-loop run: the accumulator, the offsets at which a
list request was issued (in order), the number of inter-request sleeps taken,
and whether the loop exited through one of its `break`s (`done = true`) as
opposed to running out of fuel. -/
structure DriverResult (α : Type) where
  acc : α
  fetchOffsets : List Nat
  sleeps : Nat
  done : Bool
deriving DecidableEq

/-- The shared pagination loop body.  Branches in source order: range check
(`offset_end > 0 and current_offset >= offset_end`), fetch (its
`try`/`except` maps a raise to `break`), empty-page break, page processing,
offset advance, short-page break, inter-request sleep. -/
def driverLoop {α : Type} (limit offEnd : Nat) (reqInterval : Rat)
    (fetch : Nat → Except Unit (List RIssueData))
    (process : α → List RIssueData → α) :
    Nat → Nat → α → DriverResult α
  | 0, _, acc => ⟨acc, [], 0, false⟩
  | fuel + 1, off, acc =>
    if 0 < offEnd ∧ offEnd ≤ off then ⟨acc, [], 0, true⟩
    else
      match fetch off with
      | .error _ => ⟨acc, [off], 0, true⟩
      | .ok issues =>
        if issues.isEmpty then ⟨acc, [off], 0, true⟩
        else
          if issues.length < limit then ⟨process acc issues, [off], 0, true⟩
          else
            ⟨(driverLoop limit offEnd reqInterval fetch process fuel
                (off + limit) (process acc issues)).acc,
              off :: (driverLoop limit offEnd reqInterval fetch process fuel
                (off + limit) (process acc issues)).fetchOffsets,
              (if 0 < reqInterval then 1 else 0) +
                (driverLoop limit offEnd reqInterval fetch process fuel
                  (off + limit) (process acc issues)).sleeps,
              (driverLoop limit offEnd reqInterval fetch process fuel
                (off + limit) (process acc issues)).done⟩

/-- Embedding of `RedmineIssue.has_attachments`. -/
def issueHasAttachments (i : RIssueData) : Bool := 0 < i.attachments.length

/-- Entry accumulated per matching ticket by
`delete_attachments.py::get_issues_with_attachments`
(`{"id": ..., "subject": ..., "attachment_count": ...}`). -/
structure IssueSummary where
  id : Nat
  subject : String
  attachment_count : Nat
deriving DecidableEq

def summarize (i : RIssueData) : IssueSummary :=
  ⟨i.id, i.subject, i.attachments.length⟩

/-- Embedding of `delete_attachments.py::get_issues_with_attachments`: the pagination
loop instantiated with the attachment filter, fetching through
`RedmineClient.get_issues`. -/
def get_issues_with_attachments (env : Env)
    (server : Nat → Nat → AttemptOutcome ApiData)
    (limit offEnd start : Nat) (reqInterval : Rat) (fuel : Nat) :
    DriverResult (List IssueSummary) :=
  driverLoop limit offEnd reqInterval
    (fun off => RedmineClient_get_issues env (server off))
    (fun acc issues =>
      acc ++ (issues.filter issueHasAttachments).map summarize)
    fuel start []

/-! ### Pagination loop lemmas -/

theorem driverLoop_fetchOffsets {α : Type} (limit offEnd : Nat)
    (reqInterval : Rat) (fetch : Nat → Except Unit (List RIssueData))
    (process : α → List RIssueData → α) :
    ∀ fuel off acc,
      (driverLoop limit offEnd reqInterval fetch process fuel off acc).fetchOffsets
        = (List.range (driverLoop limit offEnd reqInterval fetch process fuel
            off acc).fetchOffsets.length).map (fun i => off + i * limit) := by
  intro fuel
  induction fuel with
  | zero => intro off acc; simp [driverLoop]
  | succ n ih =>
    intro off acc
    by_cases hr : 0 < offEnd ∧ offEnd ≤ off
    · simp [driverLoop, hr]
    · cases hf : fetch off
      · simp [driverLoop, hr, hf, List.range_succ]
      · rename_i issues
        by_cases he : issues.isEmpty
        · simp [driverLoop, hr, hf, he, List.range_succ]
        · by_cases hs : issues.length < limit
          · simp [driverLoop, hr, hf, he, hs, List.range_succ]
          · simp only [driverLoop, if_neg hr, hf, he, Bool.false_eq_true,
              if_false, if_neg hs, List.length_cons, List.range_succ_eq_map,
              List.map_cons, List.map_map]
            refine List.cons_eq_cons.mpr ⟨by simp, ?_⟩
            conv_lhs => rw [ih (off + limit) (process acc issues)]
            refine List.map_congr_left ?_
            intro j hj
            simp only [Function.comp_apply, Nat.succ_eq_add_one]
            ring

theorem driverLoop_stop_range {α : Type} (limit offEnd : Nat)
    (reqInterval : Rat) (fetch : Nat → Except Unit (List RIssueData))
    (process : α → List RIssueData → α) (fuel off : Nat) (acc : α)
    (h1 : 0 < offEnd) (h2 : offEnd ≤ off) :
    driverLoop limit offEnd reqInterval fetch process (fuel + 1) off acc
      = ⟨acc, [], 0, true⟩ := by
  simp [driverLoop, h1, h2]

theorem driverLoop_stop_error {α : Type} (limit offEnd : Nat)
    (reqInterval : Rat) (fetch : Nat → Except Unit (List RIssueData))
    (process : α → List RIssueData → α) (fuel off : Nat) (acc : α)
    (hr : ¬(0 < offEnd ∧ offEnd ≤ off)) (hf : fetch off = .error ()) :
    driverLoop limit offEnd reqInterval fetch process (fuel + 1) off acc
      = ⟨acc, [off], 0, true⟩ := by
  simp [driverLoop, hr, hf]

theorem driverLoop_stop_empty {α : Type} (limit offEnd : Nat)
    (reqInterval : Rat) (fetch : Nat → Except Unit (List RIssueData))
    (process : α → List RIssueData → α) (fuel off : Nat) (acc : α)
    (hr : ¬(0 < offEnd ∧ offEnd ≤ off)) (hf : fetch off = .ok []) :
    driverLoop limit offEnd reqInterval fetch process (fuel + 1) off acc
      = ⟨acc, [off], 0, true⟩ := by
  simp [driverLoop, hr, hf]

theorem driverLoop_stop_short {α : Type} (limit offEnd : Nat)
    (reqInterval : Rat) (fetch : Nat → Except Unit (List RIssueData))
    (process : α → List RIssueData → α) (fuel off : Nat) (acc : α)
    (issues : List RIssueData)
    (hr : ¬(0 < offEnd ∧ offEnd ≤ off)) (hf : fetch off = .ok issues)
    (hne : issues ≠ []) (hshort : issues.length < limit) :
    driverLoop limit offEnd reqInterval fetch process (fuel + 1) off acc
      = ⟨process acc issues, [off], 0, true⟩ := by
  have he : issues.isEmpty = false := by
    cases issues
    · exact absurd rfl hne
    · rfl
  simp [driverLoop, hr, hf, he, hshort]

theorem driverLoop_done_stable {α : Type} (limit offEnd : Nat)
    (reqInterval : Rat) (fetch : Nat → Except Unit (List RIssueData))
    (process : α → List RIssueData → α) :
    ∀ fuel off acc,
      (driverLoop limit offEnd reqInterval fetch process fuel off acc).done
        = true →
      ∀ m, driverLoop limit offEnd reqInterval fetch process (fuel + m) off acc
        = driverLoop limit offEnd reqInterval fetch process fuel off acc := by
  intro fuel
  induction fuel with
  | zero => intro off acc h; simp [driverLoop] at h
  | succ n ih =>
    intro off acc h m
    by_cases hr : 0 < offEnd ∧ offEnd ≤ off
    · have : n + 1 + m = (n + m) + 1 := by omega
      rw [this]
      simp [driverLoop, hr]
    · cases hf : fetch off
      · have : n + 1 + m = (n + m) + 1 := by omega
        rw [this]
        simp [driverLoop, hr, hf]
      · rename_i issues
        by_cases he : issues.isEmpty
        · have : n + 1 + m = (n + m) + 1 := by omega
          rw [this]
          simp [driverLoop, hr, hf, he]
        · by_cases hs : issues.length < limit
          · have : n + 1 + m = (n + m) + 1 := by omega
            rw [this]
            simp [driverLoop, hr, hf, he, hs]
          · have hdone :
                (driverLoop limit offEnd reqInterval fetch process n
                  (off + limit) (process acc issues)).done = true := by
              simpa [driverLoop, hr, hf, he, hs] using h
            have heq : n + 1 + m = (n + m) + 1 := by omega
            rw [heq]
            simp only [driverLoop, hr, hf, he, hs, if_false]
            rw [ih (off + limit) (process acc issues) hdone m]

theorem driverLoop_continue_fetchOffsets {α : Type} (limit offEnd : Nat)
    (reqInterval : Rat) (fetch : Nat → Except Unit (List RIssueData))
    (process : α → List RIssueData → α) (fuel off : Nat) (acc : α)
    (issues : List RIssueData)
    (hr : ¬(0 < offEnd ∧ offEnd ≤ off)) (hf : fetch off = .ok issues)
    (hne : issues.isEmpty = false) (hnl : ¬(issues.length < limit)) :
    (driverLoop limit offEnd reqInterval fetch process (fuel + 1) off
      acc).fetchOffsets
      = off :: (driverLoop limit offEnd reqInterval fetch process fuel
          (off + limit) (process acc issues)).fetchOffsets := by
  simp only [driverLoop, if_neg hr, hf, hne, Bool.false_eq_true, if_false,
    if_neg hnl]

theorem driverLoop_continue_done {α : Type} (limit offEnd : Nat)
    (reqInterval : Rat) (fetch : Nat → Except Unit (List RIssueData))
    (process : α → List RIssueData → α) (fuel off : Nat) (acc : α)
    (issues : List RIssueData)
    (hr : ¬(0 < offEnd ∧ offEnd ≤ off)) (hf : fetch off = .ok issues)
    (hne : issues.isEmpty = false) (hnl : ¬(issues.length < limit)) :
    (driverLoop limit offEnd reqInterval fetch process (fuel + 1) off
      acc).done
      = (driverLoop limit offEnd reqInterval fetch process fuel
          (off + limit) (process acc issues)).done := by
  simp only [driverLoop, if_neg hr, hf, hne, Bool.false_eq_true, if_false,
    if_neg hnl]

/-- A fetch at this offset makes the loop stop: a raise mapped through the
driver's `except`, or a page shorter than `limit` (including the empty page). -/
def stoppingFetch (limit : Nat)
    (fetch : Nat → Except Unit (List RIssueData)) (off : Nat) : Prop :=
  fetch off = .error () ∨ ∃ l, fetch off = .ok l ∧ l.length < limit

theorem driverLoop_terminates_short {α : Type} (limit offEnd : Nat)
    (reqInterval : Rat) (fetch : Nat → Except Unit (List RIssueData))
    (process : α → List RIssueData → α) :
    ∀ k off acc, stoppingFetch limit fetch (off + k * limit) →
      (driverLoop limit offEnd reqInterval fetch process (k + 1) off acc).done
        = true := by
  intro k
  induction k with
  | zero =>
    intro off acc hstop
    by_cases hr : 0 < offEnd ∧ offEnd ≤ off
    · simp [driverLoop, hr]
    · simp only [Nat.zero_mul, Nat.add_zero] at hstop
      rcases hstop with hf | ⟨l, hf, hlen⟩
      · simp [driverLoop, hr, hf]
      · cases l with
        | nil => simp [driverLoop, hr, hf]
        | cons x xs =>
          have hl : xs.length + 1 < limit := by simpa using hlen
          simp [driverLoop, hr, hf, hl]
  | succ n ih =>
    intro off acc hstop
    by_cases hr : 0 < offEnd ∧ offEnd ≤ off
    · simp [driverLoop, hr]
    · cases hf : fetch off
      · simp [driverLoop, hr, hf]
      · rename_i issues
        by_cases he : issues.isEmpty
        · simp [driverLoop, hr, hf, he]
        · by_cases hs : issues.length < limit
          · simp [driverLoop, hr, hf, he, hs]
          · have hstop' :
                stoppingFetch limit fetch (off + limit + n * limit) := by
              have : off + limit + n * limit = off + (n + 1) * limit := by ring
              rw [this]; exact hstop
            have := ih (off + limit) (process acc issues) hstop'
            simpa [driverLoop, hr, hf, he, hs] using this

theorem driverLoop_terminates_range {α : Type} (limit offEnd : Nat)
    (reqInterval : Rat) (fetch : Nat → Except Unit (List RIssueData))
    (process : α → List RIssueData → α) (hlim : 0 < limit)
    (hend : 0 < offEnd) :
    ∀ d off acc, offEnd - off ≤ d →
      (driverLoop limit offEnd reqInterval fetch process (d + 1) off acc).done
        = true := by
  intro d
  induction d with
  | zero =>
    intro off acc hd
    have : offEnd ≤ off := by omega
    simp [driverLoop, hend, this]
  | succ n ih =>
    intro off acc hd
    by_cases hr : 0 < offEnd ∧ offEnd ≤ off
    · simp [driverLoop, hr]
    · cases hf : fetch off
      · simp [driverLoop, hr, hf]
      · rename_i issues
        by_cases he : issues.isEmpty
        · simp [driverLoop, hr, hf, he]
        · by_cases hs : issues.length < limit
          · simp [driverLoop, hr, hf, he, hs]
          · have hoff : off < offEnd := by
              rcases Nat.lt_or_ge off offEnd with h | h
              · exact h
              · exact absurd ⟨hend, h⟩ hr
            have := ih (off + limit) (process acc issues) (by omega)
            simpa [driverLoop, hr, hf, he, hs] using this

/-- C2: the pagination driver issues list requests at offsets
`start, start+limit, start+2*limit, ...` in order; stops before fetching
when `offset_end` is configured (non-zero) and the current offset has
reached it; stops after processing a page shorter than `limit`; and on a
full page followed by a short page it performs exactly two fetches and
stops. -/
theorem C2_pagination {α : Type} (limit offEnd start : Nat)
    (reqInterval : Rat) (fetch : Nat → Except Unit (List RIssueData))
    (process : α → List RIssueData → α) (hlim : 0 < limit) :
    (∀ fuel acc,
      (driverLoop limit offEnd reqInterval fetch process fuel start
        acc).fetchOffsets
        = (List.range (driverLoop limit offEnd reqInterval fetch process fuel
            start acc).fetchOffsets.length).map (fun i => start + i * limit)) ∧
    (∀ fuel off acc, 0 < offEnd → offEnd ≤ off →
      driverLoop limit offEnd reqInterval fetch process (fuel + 1) off acc
        = ⟨acc, [], 0, true⟩) ∧
    (∀ fuel off acc issues, ¬(0 < offEnd ∧ offEnd ≤ off) →
      fetch off = .ok issues → issues ≠ [] → issues.length < limit →
      driverLoop limit offEnd reqInterval fetch process (fuel + 1) off acc
        = ⟨process acc issues, [off], 0, true⟩) ∧
    (∀ fuel acc p₁ p₂, fetch start = .ok p₁ → p₁.length = limit →
      fetch (start + limit) = .ok p₂ → p₂.length < limit →
      (offEnd = 0 ∨ start + limit < offEnd) →
      (driverLoop limit offEnd reqInterval fetch process (fuel + 2) start
        acc).fetchOffsets = [start, start + limit] ∧
      (driverLoop limit offEnd reqInterval fetch process (fuel + 2) start
        acc).done = true) := by
  refine ⟨fun fuel acc => driverLoop_fetchOffsets limit offEnd reqInterval
      fetch process fuel start acc,
    fun fuel off acc h1 h2 => driverLoop_stop_range limit offEnd reqInterval
      fetch process fuel off acc h1 h2,
    fun fuel off acc issues hr hf hne hs => driverLoop_stop_short limit offEnd
      reqInterval fetch process fuel off acc issues hr hf hne hs, ?_⟩
  intro fuel acc p₁ p₂ hf1 hl1 hf2 hl2 hend
  have hr1 : ¬(0 < offEnd ∧ offEnd ≤ start) := by
    rcases hend with h | h <;> (rintro ⟨h1, h2⟩; omega)
  have hr2 : ¬(0 < offEnd ∧ offEnd ≤ start + limit) := by
    rcases hend with h | h <;> (rintro ⟨h1, h2⟩; omega)
  have hne1 : p₁.isEmpty = false := by
    cases hp : p₁
    · rw [hp] at hl1; simp at hl1; omega
    · rfl
  have hnl1 : ¬(p₁.length < limit) := by omega
  have hinner :
      (driverLoop limit offEnd reqInterval fetch process (fuel + 1)
        (start + limit) (process acc p₁)).fetchOffsets = [start + limit] ∧
      (driverLoop limit offEnd reqInterval fetch process (fuel + 1)
        (start + limit) (process acc p₁)).done = true := by
    by_cases hp : p₂ = []
    · rw [hp] at hf2
      rw [driverLoop_stop_empty limit offEnd reqInterval fetch process fuel
        (start + limit) (process acc p₁) hr2 hf2]
      exact ⟨rfl, rfl⟩
    · rw [driverLoop_stop_short limit offEnd reqInterval fetch process fuel
        (start + limit) (process acc p₁) p₂ hr2 hf2 hp hl2]
      exact ⟨rfl, rfl⟩
  constructor
  · rw [driverLoop_continue_fetchOffsets limit offEnd reqInterval fetch
      process (fuel + 1) start acc p₁ hr1 hf1 hne1 hnl1, hinner.1]
  · rw [driverLoop_continue_done limit offEnd reqInterval fetch process
      (fuel + 1) start acc p₁ hr1 hf1 hne1 hnl1, hinner.2]

/-- Demonstration ticket used by concrete pagination scenarios. -/
def demoIssue (n : Nat) : RIssueData := ⟨n, "t", []⟩

/-- Demonstration list endpoint: a full page of two tickets at offset 0, a
short page of one ticket at offset 2, nothing beyond. -/
def demoFetch : Nat → Except Unit (List RIssueData) := fun off =>
  if off = 0 then .ok [demoIssue 1, demoIssue 2]
  else if off = 2 then .ok [demoIssue 3]
  else .ok []

theorem C2_pagination_witness :
    (0 : Nat) < 2 ∧
    (driverLoop 2 0 1 demoFetch
      (fun (acc : List RIssueData) l => acc ++ l) 2 0 []).fetchOffsets
      = [0, 2] ∧
    (driverLoop 2 0 1 demoFetch
      (fun (acc : List RIssueData) l => acc ++ l) 2 0 []).done = true := by
  refine ⟨by decide, ?_⟩
  exact (C2_pagination 2 0 0 1 demoFetch
    (fun (acc : List RIssueData) l => acc ++ l)
    (by decide)).2.2.2 0 [] [demoIssue 1, demoIssue 2] [demoIssue 3]
    rfl rfl rfl (by decide) (Or.inl rfl)

/-- C9: termination of the pagination loop.  With a positive limit the
offsets actually fetched are strictly increasing, every branch that does not
advance the offset exits the loop, and whenever the hard end-offset is
configured or the server eventually answers with an error, an empty page or
a short page, the loop finishes in finitely many fetches (more fuel does not
change the result). -/
theorem C9_pagination_terminates {α : Type} (limit offEnd start fuel : Nat)
    (reqInterval : Rat) (fetch : Nat → Except Unit (List RIssueData))
    (process : α → List RIssueData → α) (acc : α) (hlim : 0 < limit) :
    (driverLoop limit offEnd reqInterval fetch process fuel start
      acc).fetchOffsets.Pairwise (· < ·) ∧
    (∀ f off a, 0 < offEnd → offEnd ≤ off →
      driverLoop limit offEnd reqInterval fetch process (f + 1) off a
        = ⟨a, [], 0, true⟩) ∧
    (∀ f off a, ¬(0 < offEnd ∧ offEnd ≤ off) → fetch off = .error () →
      driverLoop limit offEnd reqInterval fetch process (f + 1) off a
        = ⟨a, [off], 0, true⟩) ∧
    (∀ f off a, ¬(0 < offEnd ∧ offEnd ≤ off) → fetch off = .ok [] →
      driverLoop limit offEnd reqInterval fetch process (f + 1) off a
        = ⟨a, [off], 0, true⟩) ∧
    ((0 < offEnd ∨ ∃ k, stoppingFetch limit fetch (start + k * limit)) →
      ∃ N, (driverLoop limit offEnd reqInterval fetch process N start
          acc).done = true ∧
        ∀ m, driverLoop limit offEnd reqInterval fetch process (N + m) start
            acc
          = driverLoop limit offEnd reqInterval fetch process N start acc) := by
  refine ⟨?_,
    fun f off a h1 h2 => driverLoop_stop_range limit offEnd reqInterval
      fetch process f off a h1 h2,
    fun f off a hr hf => driverLoop_stop_error limit offEnd reqInterval
      fetch process f off a hr hf,
    fun f off a hr hf => driverLoop_stop_empty limit offEnd reqInterval
      fetch process f off a hr hf, ?_⟩
  · rw [driverLoop_fetchOffsets]
    refine List.pairwise_map.mpr ?_
    refine (List.pairwise_lt_range _).imp ?_
    intro a b hab
    have := Nat.mul_lt_mul_of_pos_right hab hlim
    omega
  · rintro (hend | ⟨k, hk⟩)
    · refine ⟨(offEnd - start) + 1, driverLoop_terminates_range limit offEnd
        reqInterval fetch process hlim hend (offEnd - start) start acc
        (Nat.le_refl _), ?_⟩
      intro m
      exact driverLoop_done_stable limit offEnd reqInterval fetch process
        ((offEnd - start) + 1) start acc
        (driverLoop_terminates_range limit offEnd reqInterval fetch process
          hlim hend (offEnd - start) start acc (Nat.le_refl _)) m
    · refine ⟨k + 1, driverLoop_terminates_short limit offEnd reqInterval
        fetch process k start acc hk, ?_⟩
      intro m
      exact driverLoop_done_stable limit offEnd reqInterval fetch process
        (k + 1) start acc
        (driverLoop_terminates_short limit offEnd reqInterval fetch process
          k start acc hk) m

theorem C9_pagination_terminates_witness :
    (0 : Nat) < 2 ∧
    (driverLoop 2 0 1 demoFetch
      (fun (acc : List RIssueData) l => acc ++ l) 5 0 []).fetchOffsets.Pairwise
      (· < ·) := by
  refine ⟨by decide, ?_⟩
  exact (C9_pagination_terminates 2 0 0 5 1 demoFetch
    (fun acc l => acc ++ l) [] (by decide)).1

/-- C3 counterexample: with every attempt timing out, the request's retries
are exhausted (`_make_request` ends in a raise, modelled by `none`), yet
`get_issues` returns `Except.ok []`: its `except` handler swallows the
exception and no FetchError reaches the pagination driver, contrary to the
claim that `get_issues` fails with a FetchError. -/
theorem C3_counterexample :
    (RedmineClient_makeRequest defaultEnv (fun _ => .timeout)).2 = none ∧
    RedmineClient_get_issues defaultEnv (fun _ => .timeout) = .ok [] ∧
    ¬∃ e, RedmineClient_get_issues defaultEnv (fun _ => .timeout)
        = .error e := by
  refine ⟨rfl, rfl, ?_⟩
  rintro ⟨e, h⟩
  rw [show RedmineClient_get_issues defaultEnv (fun _ => .timeout)
    = .ok [] from rfl] at h
  exact Except.noConfusion h

/-- C3 (amended): when a list request exhausts its retries, `_make_request`
raises, but `get_issues` catches the exception and returns an *empty list*
(it never produces an error value); the pagination driver then stops on the
empty page — same as on a fetch error in its own `except` branch — keeping
every ticket accumulated from earlier pages. -/
theorem C3_fetch_failure_stops_pagination (env : Env)
    (out : Nat → AttemptOutcome ApiData) :
    ((RedmineClient_makeRequest env out).2 = none →
      RedmineClient_get_issues env out = .ok []) ∧
    (∃ l, RedmineClient_get_issues env out = .ok l) ∧
    (∀ (α : Type) (limit offEnd fuel off : Nat) (reqInterval : Rat)
      (fetch : Nat → Except Unit (List RIssueData))
      (process : α → List RIssueData → α) (acc : α),
      ¬(0 < offEnd ∧ offEnd ≤ off) →
      (fetch off = .ok [] ∨ fetch off = .error ()) →
      driverLoop limit offEnd reqInterval fetch process (fuel + 1) off acc
        = ⟨acc, [off], 0, true⟩) := by
  refine ⟨?_, ?_, ?_⟩
  · intro h
    unfold RedmineClient_get_issues
    rw [h]
  · unfold RedmineClient_get_issues
    cases (RedmineClient_makeRequest env out).2 <;> exact ⟨_, rfl⟩
  · intro α limit offEnd fuel off reqInterval fetch process acc hr hstop
    rcases hstop with h | h
    · exact driverLoop_stop_empty limit offEnd reqInterval fetch process
        fuel off acc hr h
    · exact driverLoop_stop_error limit offEnd reqInterval fetch process
        fuel off acc hr h

theorem C3_fetch_failure_stops_pagination_witness :
    RedmineClient_get_issues defaultEnv (fun _ => .timeout) = .ok [] ∧
    driverLoop 2 0 1 (fun _ => .ok [])
      (fun (acc : List RIssueData) l => acc ++ l) 4 6 [demoIssue 1]
      = ⟨[demoIssue 1], [6], 0, true⟩ := by
  constructor
  · exact (C3_fetch_failure_stops_pagination defaultEnv
      (fun _ => .timeout)).1 rfl
  · exact (C3_fetch_failure_stops_pagination defaultEnv
      (fun _ => .timeout)).2.2 (List RIssueData) 2 0 3 6 1 (fun _ => .ok [])
      (fun acc l => acc ++ l) [demoIssue 1] (by simp) (Or.inl rfl)

/-! ## `RedmineIssue._sanitize_filename`

`urllib.parse.unquote` is modelled at scalar level: a valid `%XX` escape
becomes the character with code `16*X+X`, an invalid escape is kept
literally.  (Python decodes the resulting byte sequence as UTF-8; for the
ASCII range relevant to the replaced characters the two agree.)  The
decoder is total, matching the fact that `unquote` does not raise on `str`
input, so the source's `except` fallback to the raw name never fires. -/

/-- Value of a hex digit, as accepted inside a `%XX` escape. -/
def hexDigitVal (c : Char) : Option Nat :=
  if '0' ≤ c ∧ c ≤ '9' then some (c.toNat - 48)
  else if 'A' ≤ c ∧ c ≤ 'F' then some (c.toNat - 55)
  else if 'a' ≤ c ∧ c ≤ 'f' then some (c.toNat - 87)
  else none

/-- Embedding of `urllib.parse.unquote` on the character list of the filename. -/
def pyUnquote : List Char → List Char
  | [] => []
  | '%' :: a :: b :: rest =>
    match hexDigitVal a, hexDigitVal b with
    | some hi, some lo => Char.ofNat (16 * hi + lo) :: pyUnquote rest
    | _, _ => '%' :: pyUnquote (a :: b :: rest)
  | c :: rest => c :: pyUnquote rest

/-- Characters replaced by the regex `[<>:"/\\|?*\x00-\x1f]`. -/
def isDangerousChar (c : Char) : Bool :=
  c = '<' || c = '>' || c = ':' || c = '"' || c = '/' || c = '\\' ||
  c = '|' || c = '?' || c = '*' || decide (c.toNat ≤ 31)

/-- Characters removed at both ends by `.strip(" .")`. -/
def isStripChar (c : Char) : Bool := c = ' ' || c = '.'

/-- Python's `str.strip(" .")`. -/
def pyStrip (l : List Char) : List Char :=
  ((l.dropWhile isStripChar).reverse.dropWhile isStripChar).reverse

/-- The decode-and-replace middle steps of `_sanitize_filename`
(`decoded_filename` and `re.sub`). -/
def replacedName (filename : String) : List Char :=
  (pyUnquote filename.data).map (fun c => if isDangerousChar c then '_' else c)

/-- Embedding of `RedmineIssue._sanitize_filename`: decode, replace dangerous characters
with an underscore, strip leading/trailing spaces and dots, and default to
`"unnamed_file"` when empty. -/
def sanitize_filename (filename : String) : String :=
  if pyStrip (replacedName filename) = [] then "unnamed_file"
  else String.mk (pyStrip (replacedName filename))

theorem mem_pyStrip {c : Char} {l : List Char} (h : c ∈ pyStrip l) :
    c ∈ l := by
  unfold pyStrip at h
  have h1 := List.mem_reverse.mp h
  have h2 := (List.dropWhile_sublist isStripChar).mem h1
  have h3 := List.mem_reverse.mp h2
  exact (List.dropWhile_sublist isStripChar).mem h3

theorem head_dropWhile_not (p : Char → Bool) :
    ∀ (l : List Char) (c : Char), (l.dropWhile p).head? = some c →
      p c = false := by
  intro l
  induction l with
  | nil => intro c h; simp [List.dropWhile] at h
  | cons x xs ih =>
    intro c h
    by_cases hp : p x
    · rw [List.dropWhile_cons_of_pos hp] at h
      exact ih c h
    · rw [List.dropWhile_cons_of_neg hp] at h
      simp at h
      rw [← h]
      exact Bool.eq_false_iff.mpr hp

theorem pyStrip_getLast {l : List Char} {c : Char}
    (h : (pyStrip l).getLast? = some c) : isStripChar c = false := by
  unfold pyStrip at h
  rw [List.getLast?_reverse] at h
  exact head_dropWhile_not isStripChar _ c h

theorem pyStrip_head {l : List Char} {c : Char}
    (h : (pyStrip l).head? = some c) : isStripChar c = false := by
  unfold pyStrip at h
  obtain ⟨t, ht⟩ := List.dropWhile_suffix
    (l := (l.dropWhile isStripChar).reverse) (p := isStripChar)
  have hD : l.dropWhile isStripChar
      = ((l.dropWhile isStripChar).reverse.dropWhile isStripChar).reverse
        ++ t.reverse := by
    have := congrArg List.reverse ht
    simpa [List.reverse_append] using this.symm
  cases hY : ((l.dropWhile isStripChar).reverse.dropWhile isStripChar).reverse
    with
  | nil => rw [hY] at h; simp at h
  | cons y ys =>
    rw [hY] at h
    simp at h
    have hhead : (l.dropWhile isStripChar).head? = some y := by
      rw [hD, hY]
      rfl
    rw [← h]
    exact head_dropWhile_not isStripChar l y hhead

theorem pyUnquote_cons_ne (x : Char) (rest : List Char) (hx : x ≠ '%') :
    pyUnquote (x :: rest) = x :: pyUnquote rest := by
  rw [pyUnquote.eq_def]
  split
  · rename_i heq
    exact List.noConfusion heq
  · rename_i heq
    exact absurd (List.cons.inj heq).1 hx
  · rename_i heq
    obtain ⟨h1, h2⟩ := List.cons.inj heq
    rw [← h1, ← h2]

theorem pyUnquote_of_no_escape :
    ∀ l : List Char, (∀ c ∈ l, c ≠ '%') → pyUnquote l = l := by
  intro l
  induction l with
  | nil => intro _; rfl
  | cons x xs ih =>
    intro h
    rw [pyUnquote_cons_ne x xs (h x (List.mem_cons_self x xs))]
    rw [ih (fun c hc => h c (List.mem_cons_of_mem x hc))]

/-- C6: `sanitize` percent-decodes (the decoder is total, so the source's
decode-failure fallback never fires and no error is raised), replaces every
occurrence of `< > : " / \ | ? *` and control characters 0x00-0x1F with an
underscore, strips leading and trailing spaces and dots, and substitutes the
fixed default name for an empty result; `sanitize("a%2Fb.txt") = "a_b.txt"`
and `sanitize("   ...   ")` is the default name. -/
theorem C6_sanitize_filename (s : String) :
    sanitize_filename s =
      (if pyStrip ((pyUnquote s.data).map
          (fun c => if isDangerousChar c then '_' else c)) = []
        then "unnamed_file"
        else String.mk (pyStrip ((pyUnquote s.data).map
          (fun c => if isDangerousChar c then '_' else c)))) ∧
    sanitize_filename s ≠ "" ∧
    (∀ c ∈ (sanitize_filename s).data, isDangerousChar c = false) ∧
    (∀ c, (sanitize_filename s).data.head? = some c →
      isStripChar c = false) ∧
    (∀ c, (sanitize_filename s).data.getLast? = some c →
      isStripChar c = false) ∧
    ((∀ c ∈ s.data, c ≠ '%') → pyUnquote s.data = s.data) ∧
    sanitize_filename "a%2Fb.txt" = "a_b.txt" ∧
    sanitize_filename "   ...   " = "unnamed_file" := by
  refine ⟨rfl, ?_, ?_, ?_, ?_, pyUnquote_of_no_escape s.data,
    by decide, by decide⟩
  · unfold sanitize_filename
    by_cases hstr : pyStrip (replacedName s) = []
    · rw [if_pos hstr]; decide
    · rw [if_neg hstr]
      intro hcon
      apply hstr
      have := congrArg String.data hcon
      simpa using this
  · intro c hc
    unfold sanitize_filename at hc
    by_cases hstr : pyStrip (replacedName s) = []
    · rw [if_pos hstr] at hc
      exact (by decide :
        ∀ c ∈ ("unnamed_file" : String).data, isDangerousChar c = false) c hc
    · rw [if_neg hstr] at hc
      have h2 := mem_pyStrip (l := replacedName s) hc
      obtain ⟨a, _, ha⟩ := List.mem_map.mp h2
      by_cases hd : isDangerousChar a
      · rw [if_pos hd] at ha
        rw [← ha]; decide
      · rw [if_neg hd] at ha
        rw [← ha]
        exact Bool.eq_false_iff.mpr hd
  · intro c hc
    unfold sanitize_filename at hc
    by_cases hstr : pyStrip (replacedName s) = []
    · rw [if_pos hstr] at hc
      rw [show ("unnamed_file" : String).data.head? = some 'u' from rfl] at hc
      rw [← Option.some.inj hc]
      decide
    · rw [if_neg hstr] at hc
      exact pyStrip_head hc
  · intro c hc
    unfold sanitize_filename at hc
    by_cases hstr : pyStrip (replacedName s) = []
    · rw [if_pos hstr] at hc
      rw [show ("unnamed_file" : String).data.getLast? = some 'e' from
        rfl] at hc
      rw [← Option.some.inj hc]
      decide
    · rw [if_neg hstr] at hc
      exact pyStrip_getLast hc

/-! ## Collision resolution (`RedmineIssue.download_attachments` lines 276-281)

The source loop is
`counter = 1; while download_path.exists(): name, ext = os.path.splitext(safe_filename);
download_path = Path(download_dir) / f"{name}_{counter}{ext}"; counter += 1`.
The filesystem is modelled as the list of file names existing in the
directory.  The unbounded `while` is given `existing.length + 1` fuel, which
is proved sufficient below (`C7_resolveCollision`): among that many distinct
candidates at least one is not in `existing`. -/

/-- Python's `os.path.splitext` on a bare filename (the sanitised name
contains no path separator): split at the last dot unless every character
before it is a dot. -/
def splitextFilename (s : String) : String × String :=
  match s.data.reverse.findIdx? (fun c => c == '.') with
  | none => (s, "")
  | some r =>
    if (s.data.take (s.data.length - 1 - r)).any (fun c => c != '.') then
      (String.mk (s.data.take (s.data.length - 1 - r)),
        String.mk (s.data.drop (s.data.length - 1 - r)))
    else (s, "")

/-- Decimal digit character. -/
def decDigitChar (d : Nat) : Char := Char.ofNat (48 + d)

/-- Decimal digits of `n`, most significant first, with fuel to keep the
recursion structural. -/
def natStrAux : Nat → Nat → List Char
  | 0, _ => []
  | fuel + 1, n =>
    if n < 10 then [decDigitChar n]
    else natStrAux fuel (n / 10) ++ [decDigitChar (n % 10)]

/-- Decimal string of `n`, as produced for `counter` by the f-string
`f"{name}_{counter}{ext}"`. -/
def natStr (n : Nat) : String := String.mk (natStrAux (n + 1) n)

/-- Left inverse of the decimal printer, used to prove it injective. -/
def parseDec (l : List Char) : Nat :=
  l.foldl (fun a c => 10 * a + (c.toNat - 48)) 0

theorem parseDec_natStrAux :
    ∀ fuel n, n < fuel →
      parseDec (natStrAux fuel n) = n := by
  intro fuel
  induction fuel with
  | zero => intro n h; omega
  | succ f ih =>
    intro n h
    by_cases h10 : n < 10
    · have hd : (decDigitChar n).toNat = 48 + n := by
        interval_cases n <;> decide
      simp [natStrAux, h10, parseDec, hd]
    · have hdiv : n / 10 < f := by
        have h1 : n / 10 < n := Nat.div_lt_self (by omega) (by omega)
        omega
      have hmod : (decDigitChar (n % 10)).toNat = 48 + n % 10 := by
        have : n % 10 < 10 := Nat.mod_lt n (by omega)
        interval_cases h : n % 10 <;> simp [h] <;> decide
      have hih := ih (n / 10) hdiv
      simp only [natStrAux, h10, if_false]
      unfold parseDec at hih ⊢
      rw [List.foldl_append]
      rw [hih, List.foldl_cons, List.foldl_nil, hmod]
      omega

theorem natStr_inj : Function.Injective natStr := by
  intro m n h
  have hdata : natStrAux (m + 1) m = natStrAux (n + 1) n :=
    congrArg String.data h
  have h1 := parseDec_natStrAux (m + 1) m (Nat.lt_succ_self m)
  have h2 := parseDec_natStrAux (n + 1) n (Nat.lt_succ_self n)
  rw [← h1, ← h2, hdata]

/-- The candidate path tried for counter value `k`:
`f"{name}_{counter}{ext}"`. -/
def collisionCandidate (stem ext : String) (k : Nat) : String :=
  stem ++ "_" ++ natStr k ++ ext

theorem collisionCandidate_inj (stem ext : String) :
    Function.Injective (collisionCandidate stem ext) := by
  intro k₁ k₂ h
  unfold collisionCandidate at h
  have hd := congrArg String.data h
  simp only [String.data_append] at hd
  have h1 := List.append_cancel_right hd
  have h2 := List.append_cancel_left h1
  exact natStr_inj (congrArg String.mk h2)

/-- The `while download_path.exists()` loop. -/
def collisionLoop (existing : List String) (stem ext : String) :
    Nat → Nat → Option String
  | 0, _ => none
  | fuel + 1, k =>
    if collisionCandidate stem ext k ∈ existing then
      collisionLoop existing stem ext fuel (k + 1)
    else some (collisionCandidate stem ext k)

/-- Collision resolution for one attachment: keep the sanitised name if the
path does not exist, otherwise append `_1`, `_2`, … before the extension
until the path is free. -/
def resolveCollision (existing : List String) (safeName : String) : String :=
  if safeName ∈ existing then
    (collisionLoop existing (splitextFilename safeName).1
      (splitextFilename safeName).2 (existing.length + 1) 1).getD safeName
  else safeName

theorem collisionLoop_first_free (existing : List String) (stem ext : String) :
    ∀ m fuel k, m < fuel →
      (∀ j, j < m → collisionCandidate stem ext (k + j) ∈ existing) →
      collisionCandidate stem ext (k + m) ∉ existing →
      collisionLoop existing stem ext fuel k
        = some (collisionCandidate stem ext (k + m)) := by
  intro m
  induction m with
  | zero =>
    intro fuel k hfuel _ hfree
    obtain ⟨f, rfl⟩ : ∃ f, fuel = f + 1 := ⟨fuel - 1, by omega⟩
    simp only [Nat.add_zero] at hfree
    simp [collisionLoop, hfree]
  | succ p ih =>
    intro fuel k hfuel hin hfree
    obtain ⟨f, rfl⟩ : ∃ f, fuel = f + 1 := ⟨fuel - 1, by omega⟩
    have h0 : collisionCandidate stem ext k ∈ existing := by
      have := hin 0 (Nat.succ_pos p)
      simpa using this
    have := ih f (k + 1) (by omega)
      (fun j hj => by
        have := hin (j + 1) (by omega)
        have harr : k + (j + 1) = k + 1 + j := by omega
        rwa [harr] at this)
      (by
        have harr : k + (p + 1) = k + 1 + p := by omega
        rwa [harr] at hfree)
    simp only [collisionLoop, h0, if_pos]
    rw [this]
    congr 1
    congr 1
    omega

theorem exists_free_candidate (existing : List String) (stem ext : String) :
    ∃ m, m < existing.length + 1 ∧
      collisionCandidate stem ext (1 + m) ∉ existing := by
  by_contra hcon
  push_neg at hcon
  have hall : ∀ m, m < existing.length + 1 →
      collisionCandidate stem ext (1 + m) ∈ existing := fun m hm => hcon m hm
  have hsub : ((List.range (existing.length + 1)).map
      (fun m => collisionCandidate stem ext (1 + m))) ⊆ existing := by
    intro x hx
    obtain ⟨m, hm, rfl⟩ := List.mem_map.mp hx
    exact hall m (List.mem_range.mp hm)
  have hnodup : ((List.range (existing.length + 1)).map
      (fun m => collisionCandidate stem ext (1 + m))).Nodup := by
    refine (List.nodup_range _).map ?_
    intro a b hab
    have := collisionCandidate_inj stem ext hab
    omega
  have hlen := (hnodup.subperm hsub).length_le
  simp at hlen

/-- C7: collision resolution returns `safeName` when that path does not
exist; otherwise it tries `name_1.ext`, `name_2.ext`, … with a strictly
incrementing counter and returns the first candidate that does not exist.
With `report.pdf` existing, a new `report.pdf` resolves to `report_1.pdf`,
and with `report_1.pdf` also existing, to `report_2.pdf`. -/
theorem C7_resolveCollision (existing : List String) (safeName : String) :
    (safeName ∉ existing → resolveCollision existing safeName = safeName) ∧
    (safeName ∈ existing →
      ∃ k, 1 ≤ k ∧
        (∀ j, 1 ≤ j → j < k →
          collisionCandidate (splitextFilename safeName).1
            (splitextFilename safeName).2 j ∈ existing) ∧
        collisionCandidate (splitextFilename safeName).1
          (splitextFilename safeName).2 k ∉ existing ∧
        resolveCollision existing safeName
          = collisionCandidate (splitextFilename safeName).1
              (splitextFilename safeName).2 k) ∧
    resolveCollision ["report.pdf"] "report.pdf" = "report_1.pdf" ∧
    resolveCollision ["report.pdf", "report_1.pdf"] "report.pdf"
      = "report_2.pdf" ∧
    splitextFilename "report.pdf" = ("report", ".pdf") := by
  refine ⟨?_, ?_, by decide, by decide, by decide⟩
  · intro h
    simp [resolveCollision, h]
  · intro h
    have hex := exists_free_candidate existing (splitextFilename safeName).1
      (splitextFilename safeName).2
    have hdec : DecidablePred (fun m =>
        collisionCandidate (splitextFilename safeName).1
          (splitextFilename safeName).2 (1 + m) ∉ existing) := by
      intro m
      infer_instance
    obtain ⟨m, hmlt, hmfree⟩ := hex
    have hex2 : ∃ m, collisionCandidate (splitextFilename safeName).1
        (splitextFilename safeName).2 (1 + m) ∉ existing := ⟨m, hmfree⟩
    have hspec := Nat.find_spec hex2
    have hmin := fun j (hj : j < Nat.find hex2) => Nat.find_min hex2 hj
    have hfind_le : Nat.find hex2 ≤ m := Nat.find_min' hex2 hmfree
    refine ⟨1 + Nat.find hex2, by omega, ?_, hspec, ?_⟩
    · intro j h1j hjk
      have hj' : j - 1 < Nat.find hex2 := by omega
      have := not_not.mp (hmin (j - 1) hj')
      have harr : 1 + (j - 1) = j := by omega
      rwa [harr] at this
    · unfold resolveCollision
      rw [if_pos h]
      rw [collisionLoop_first_free existing (splitextFilename safeName).1
        (splitextFilename safeName).2 (Nat.find hex2) (existing.length + 1) 1
        (by omega)
        (fun j hj => not_not.mp (hmin j hj)) hspec]
      rfl

theorem C6_sanitize_filename_witness :
    sanitize_filename "a%2Fb.txt" = "a_b.txt" ∧
    sanitize_filename "   ...   " = "unnamed_file" :=
  ⟨(C6_sanitize_filename "a%2Fb.txt").2.2.2.2.2.2.1,
    (C6_sanitize_filename "   ...   ").2.2.2.2.2.2.2⟩

theorem C7_resolveCollision_witness :
    ("new.txt" ∉ (["report.pdf"] : List String)) ∧
    resolveCollision ["report.pdf"] "new.txt" = "new.txt" := by
  refine ⟨by decide, ?_⟩
  exact (C7_resolveCollision ["report.pdf"] "new.txt").1 (by decide)

/-! ## Download path filesystem behaviour
(`donwload_attachments.py::download_attachments` per-issue block, lines
212-227, and `RedmineIssue.download_attachments`, lines 265-307)

The per-ticket directory is modelled as the list of file names it contains.
Network downloads are taken as succeeding — the claims under test concern
which paths are written.  The source first does
`if issue_dir.exists(): shutil.rmtree(issue_dir)` and `issue_dir.mkdir()`,
so the downloads always start from an empty directory. -/

/-- Embedding of `RedmineIssue.download_attachments` acting on the directory: for each
attachment, sanitize the name, resolve collisions against the current
directory contents, and write the file.  Returns the final directory
contents and the written paths in order. -/
def download_attachments_fs (dir : List String) :
    List String → List String × List String
  | [] => (dir, [])
  | name :: rest =>
    ((download_attachments_fs
        (dir ++ [resolveCollision dir (sanitize_filename name)]) rest).1,
      resolveCollision dir (sanitize_filename name) ::
        (download_attachments_fs
          (dir ++ [resolveCollision dir (sanitize_filename name)]) rest).2)

/-- Outcome of processing one ticket in `download_attachments`: whether a
pre-existing ticket directory was deleted, the final directory contents, and
the paths written during this run. -/
structure IssueRunResult where
  removedExistingDir : Bool
  finalDir : List String
  writes : List String
deriving DecidableEq

/-- The per-ticket block of `download_attachments`: delete the ticket
directory if it exists (`shutil.rmtree`), recreate it empty, then download
all attachments into it. -/
def processIssueDownload (prior : Option (List String))
    (names : List String) : IssueRunResult :=
  ⟨prior.isSome, (download_attachments_fs [] names).1,
    (download_attachments_fs [] names).2⟩

/-- C8 counterexample: for a ticket whose directory already contains
`report.pdf` from a previous run, re-running the download path for the same
single attachment `report.pdf` deletes the existing directory and writes the
file at its unsuffixed name — no `report_1.pdf` is produced, and the
pre-existing file is not preserved alongside. -/
theorem C8_counterexample :
    (processIssueDownload (some ["report.pdf"])
      ["report.pdf"]).removedExistingDir = true ∧
    (processIssueDownload (some ["report.pdf"]) ["report.pdf"]).writes
      = ["report.pdf"] ∧
    "report_1.pdf" ∉
      (processIssueDownload (some ["report.pdf"]) ["report.pdf"]).finalDir := by
  refine ⟨rfl, by decide, by decide⟩

/-- C8 (amended): re-running the download path does not preserve existing
files: the per-ticket directory is deleted and recreated empty, so the run's
outcome is independent of any prior contents and the attachment is written
under its unsuffixed sanitized name.  Collision suffixes arise only within a
single run, when two attachments of the same ticket sanitize to the same
name. -/
theorem C8_rerun_deletes_directory (prior : Option (List String))
    (names : List String) :
    (processIssueDownload prior names).finalDir
      = (processIssueDownload none names).finalDir ∧
    (processIssueDownload prior names).writes
      = (processIssueDownload none names).writes ∧
    (processIssueDownload prior names).removedExistingDir = prior.isSome ∧
    (processIssueDownload none ["report.pdf", "report.pdf"]).writes
      = ["report.pdf", "report_1.pdf"] := by
  exact ⟨rfl, rfl, rfl, by decide⟩

/-! ## Browser delete client (`redmine_browser_client.py`)

The browser page for a ticket is abstracted to: whether an `.attachments`
section is present, how many `.attachments .delete` controls it has, and the
outcome of the click during attempt `a` on attachment index `i` (`none` =
the click and the following waits succeed, `some e` = an exception with
message `e`).  Login is out of scope of the claims under test. -/

/-- Abstract ticket page as seen by
`RedmineBrowserClient.delete_attachments_from_issue`.  `pageLoadError`
models an exception raised while navigating to the ticket page, waiting for
it to load, or locating the attachments section and its delete controls
(lines 216-238); such an exception propagates to the method's enclosing
`except Exception` handler (lines 328-332), which returns `False` without
recording any manual-follow-up entry. -/
structure TicketPage where
  pageLoadError : Option String
  hasAttachmentsSection : Bool
  deleteButtonCount : Nat
  clickOutcome : Nat → Nat → Option String

/-- A `failed_attachments` entry
`{"issue_id": ..., "attachment_index": i+1, "total_attachments": ...,
"error": str(e)}`. -/
structure ManualRecord where
  issue_id : Nat
  attachment_index : Nat
  total_attachments : Nat
  error : String
deriving DecidableEq

/-- The per-attachment retry loop (lines 259-303): `none` when some attempt
succeeds (the loop `break`s), `some e` with the final attempt's error when
all `retry_count + 1` attempts fail.  `remaining = retry_count - attempt`. -/
def attemptDelete (out : Nat → Option String) : Nat → Nat → Option String
  | 0, a => out a
  | r + 1, a =>
    match out a with
    | none => none
    | some _ => attemptDelete out r (a + 1)

/-- The `for i in range(attachment_count)` loop, accumulating
`failed_attachments` in order; `m` counts the attachments still to process. -/
def deleteIssueLoop (R issue_id total : Nat)
    (out : Nat → Nat → Option String) : Nat → Nat → List ManualRecord
  | _, 0 => []
  | i, m + 1 =>
    match attemptDelete (out i) R 0 with
    | none => deleteIssueLoop R issue_id total out (i + 1) m
    | some e =>
      ⟨issue_id, i + 1, total, e⟩ ::
        deleteIssueLoop R issue_id total out (i + 1) m

/-- Embedding of `RedmineBrowserClient.delete_attachments_from_issue`,
including its enclosing `try`/`except`: an exception during page
navigation/locator setup falls through to the outer handler, which returns
`False` with no manual-follow-up records; otherwise the method returns
`True` with no records when the attachments section is absent or has no
delete controls; and otherwise it deletes the attachments one by one with
per-item retry, records a manual-follow-up entry for every attachment whose
retries are exhausted, and returns `True` iff no entry was recorded (the
source returns `False` when `failed_attachments` is non-empty). -/
def delete_attachments_from_issue (R : Nat) (page : TicketPage)
    (issue_id : Nat) : Bool × List ManualRecord :=
  match page.pageLoadError with
  | some _ => (false, [])
  | none =>
    if page.hasAttachmentsSection = false then (true, [])
    else if page.deleteButtonCount = 0 then (true, [])
    else
      ((deleteIssueLoop R issue_id page.deleteButtonCount page.clickOutcome 0
          page.deleteButtonCount).isEmpty,
        deleteIssueLoop R issue_id page.deleteButtonCount page.clickOutcome 0
          page.deleteButtonCount)

/-- Result of `RedmineBrowserClient.delete_attachments_from_issues`: the
per-ticket results in input order (the Python dict preserves insertion
order), the manual-follow-up records emitted across the batch, and the
number of inter-ticket sleeps taken. -/
structure BatchDeleteResult where
  results : List (Nat × Bool)
  manualRecords : List ManualRecord
  sleeps : Nat
deriving DecidableEq

/-- Embedding of `RedmineBrowserClient.delete_attachments_from_issues`: iterate the ids
in order, record each ticket's boolean outcome, and sleep the configured
delete interval between tickets (`if i < len(issue_ids) and
self.delete_interval > 0`), not after the last. -/
def delete_attachments_from_issues (R : Nat) (interval : Rat)
    (pages : Nat → TicketPage) : List Nat → BatchDeleteResult
  | [] => ⟨[], [], 0⟩
  | [i] =>
    ⟨[(i, (delete_attachments_from_issue R (pages i) i).1)],
      (delete_attachments_from_issue R (pages i) i).2, 0⟩
  | i :: j :: rest =>
    ⟨(i, (delete_attachments_from_issue R (pages i) i).1) ::
        (delete_attachments_from_issues R interval pages (j :: rest)).results,
      (delete_attachments_from_issue R (pages i) i).2 ++
        (delete_attachments_from_issues R interval pages
          (j :: rest)).manualRecords,
      (if 0 < interval then 1 else 0) +
        (delete_attachments_from_issues R interval pages (j :: rest)).sleeps⟩

/-! ### Browser client lemmas -/

theorem attemptDelete_none_iff (out : Nat → Option String) :
    ∀ r a, attemptDelete out r a = none ↔ ∃ j, j ≤ r ∧ out (a + j) = none := by
  intro r
  induction r with
  | zero =>
    intro a
    constructor
    · intro h
      exact ⟨0, Nat.le_refl 0, by simpa using h⟩
    · rintro ⟨j, hj, hout⟩
      interval_cases j
      simpa using hout
  | succ n ih =>
    intro a
    constructor
    · intro h
      unfold attemptDelete at h
      cases hout : out a
      · exact ⟨0, Nat.zero_le _, by simpa using hout⟩
      · rw [hout] at h
        obtain ⟨j, hj, hsucc⟩ := (ih (a + 1)).mp h
        refine ⟨j + 1, by omega, ?_⟩
        have : a + 1 + j = a + (j + 1) := by omega
        rwa [this] at hsucc
    · rintro ⟨j, hj, hout⟩
      unfold attemptDelete
      cases hfirst : out a
      · rfl
      · cases j with
        | zero => rw [Nat.add_zero] at hout; rw [hfirst] at hout; cases hout
        | succ p =>
          refine (ih (a + 1)).mpr ⟨p, by omega, ?_⟩
          have : a + 1 + p = a + (p + 1) := by omega
          rwa [this]

theorem attemptDelete_allFail (out : Nat → Option String) :
    ∀ r a, (∀ j, j ≤ r → out (a + j) ≠ none) →
      attemptDelete out r a = out (a + r) := by
  intro r
  induction r with
  | zero => intro a _; simp [attemptDelete]
  | succ n ih =>
    intro a hfail
    unfold attemptDelete
    cases hfirst : out a
    · exact absurd (by simpa using hfirst) (hfail 0 (Nat.zero_le _))
    · rw [ih (a + 1) (fun j hj => by
        have := hfail (j + 1) (by omega)
        have harr : a + (j + 1) = a + 1 + j := by omega
        rwa [harr] at this)]
      have harr2 : a + 1 + n = a + (n + 1) := by omega
      rw [harr2]

theorem deleteIssueLoop_eq (R issue_id total : Nat)
    (out : Nat → Nat → Option String) :
    ∀ m i, deleteIssueLoop R issue_id total out i m
      = (List.range m).filterMap (fun d =>
          (attemptDelete (out (i + d)) R 0).map
            (fun e => ⟨issue_id, i + d + 1, total, e⟩)) := by
  intro m
  induction m with
  | zero => intro i; rfl
  | succ p ih =>
    intro i
    rw [List.range_succ_eq_map, List.filterMap_cons]
    cases hat : attemptDelete (out (i + 0)) R 0 with
    | none =>
      have h0 : attemptDelete (out i) R 0 = none := by simpa using hat
      simp only [deleteIssueLoop, h0]
      rw [ih (i + 1), List.filterMap_map]
      refine List.filterMap_congr ?_
      intro d _
      simp only [Function.comp_apply, Nat.succ_eq_add_one]
      have harr : i + 1 + d = i + (d + 1) := by omega
      rw [harr]
    | some e =>
      have h0 : attemptDelete (out i) R 0 = some e := by simpa using hat
      simp only [deleteIssueLoop, h0, Option.map_some, Nat.add_zero]
      refine List.cons_eq_cons.mpr ⟨rfl, ?_⟩
      rw [ih (i + 1), List.filterMap_map]
      refine List.filterMap_congr ?_
      intro d _
      simp only [Function.comp_apply, Nat.succ_eq_add_one]
      have harr : i + 1 + d = i + (d + 1) := by omega
      rw [harr]

theorem batch_results_eq (R : Nat) (interval : Rat)
    (pages : Nat → TicketPage) :
    ∀ ids, (delete_attachments_from_issues R interval pages ids).results
      = ids.map (fun i =>
          (i, (delete_attachments_from_issue R (pages i) i).1)) := by
  intro ids
  induction ids with
  | nil => rfl
  | cons i rest ih =>
    cases rest with
    | nil => rfl
    | cons j t =>
      simp only [delete_attachments_from_issues, List.map_cons]
      rw [ih]
      simp

theorem batch_records_eq (R : Nat) (interval : Rat)
    (pages : Nat → TicketPage) :
    ∀ ids, (delete_attachments_from_issues R interval pages ids).manualRecords
      = ids.flatMap (fun i =>
          (delete_attachments_from_issue R (pages i) i).2) := by
  intro ids
  induction ids with
  | nil => rfl
  | cons i rest ih =>
    cases rest with
    | nil => simp [delete_attachments_from_issues]
    | cons j t =>
      simp only [delete_attachments_from_issues, List.flatMap_cons]
      rw [ih]
      simp

theorem batch_sleeps_eq (R : Nat) (interval : Rat)
    (pages : Nat → TicketPage) :
    ∀ ids, (delete_attachments_from_issues R interval pages ids).sleeps
      = if 0 < interval ∧ ids ≠ [] then ids.length - 1 else 0 := by
  intro ids
  induction ids with
  | nil => simp [delete_attachments_from_issues]
  | cons i rest ih =>
    cases rest with
    | nil => simp [delete_attachments_from_issues]
    | cons j t =>
      simp only [delete_attachments_from_issues]
      rw [ih]
      by_cases hi : 0 < interval
      · simp [hi, List.length_cons]
        omega
      · simp [hi]

/-- C5 counterexample: a ticket page whose navigation/locator setup raises
(here a navigation timeout) makes `delete_attachments_from_issue` return
failure through its enclosing `except` handler with *zero* manual-follow-up
records, so "the ticket's result is success if and only if zero
manual-follow-up records were recorded for it" is false at this input: the
record list is empty yet the result is failure. -/
theorem C5_counterexample :
    (delete_attachments_from_issue 3
      (TicketPage.mk (some "navigation timeout") true 1 (fun _ _ => none))
      9).2 = [] ∧
    (delete_attachments_from_issue 3
      (TicketPage.mk (some "navigation timeout") true 1 (fun _ _ => none))
      9).1 = false ∧
    ¬((delete_attachments_from_issue 3
        (TicketPage.mk (some "navigation timeout") true 1 (fun _ _ => none))
        9).1 = true ↔
      (delete_attachments_from_issue 3
        (TicketPage.mk (some "navigation timeout") true 1 (fun _ _ => none))
        9).2 = []) := by
  refine ⟨rfl, rfl, ?_⟩
  intro h
  exact absurd (h.mpr rfl) (by decide)

/-- C5 (amended): when the ticket page loads and its delete controls are
located without an exception, the claim holds as stated: no attachments
section or zero delete controls gives success; exactly one manual-follow-up
record `{issue_id, attachment_index, total_attachments, error}` is produced
per attachment whose `retry_count + 1` attempts all fail, in index order,
with the remaining attachments still processed; and the result is success
iff zero records were recorded.  Unconditionally only the "only if"
direction survives — success implies zero records — because a page-setup
exception reaches the method's outer handler, which returns failure with no
records. -/
theorem C5_per_ticket_delete (R : Nat) (page : TicketPage)
    (issue_id : Nat) :
    (∀ e, page.pageLoadError = some e →
      delete_attachments_from_issue R page issue_id = (false, [])) ∧
    ((delete_attachments_from_issue R page issue_id).1 = true →
      (delete_attachments_from_issue R page issue_id).2 = []) ∧
    (page.pageLoadError = none →
      (page.hasAttachmentsSection = false ∨ page.deleteButtonCount = 0 →
        delete_attachments_from_issue R page issue_id = (true, [])) ∧
      ((delete_attachments_from_issue R page issue_id).1 = true ↔
        (delete_attachments_from_issue R page issue_id).2 = []) ∧
      ((delete_attachments_from_issue R page issue_id).2
        = if page.hasAttachmentsSection = false ∨ page.deleteButtonCount = 0
          then []
          else (List.range page.deleteButtonCount).filterMap (fun i =>
            (attemptDelete (page.clickOutcome i) R 0).map
              (fun e => ⟨issue_id, i + 1, page.deleteButtonCount, e⟩)))) ∧
    (∀ i, attemptDelete (page.clickOutcome i) R 0 = none ↔
      ∃ j, j ≤ R ∧ page.clickOutcome i j = none) ∧
    (∀ i, (∀ j, j ≤ R → page.clickOutcome i j ≠ none) →
      attemptDelete (page.clickOutcome i) R 0 = page.clickOutcome i R) := by
  refine ⟨?_, ?_, ?_, ?_, ?_⟩
  · intro e he
    simp [delete_attachments_from_issue, he]
  · cases hload : page.pageLoadError with
    | some e =>
      intro _
      simp [delete_attachments_from_issue, hload]
    | none =>
      simp only [delete_attachments_from_issue, hload]
      by_cases h1 : page.hasAttachmentsSection = false
      · simp [h1]
      · by_cases h2 : page.deleteButtonCount = 0
        · simp [h1, h2]
        · simp only [h1, h2, if_false]
          exact List.isEmpty_iff.mp
  · intro hload
    refine ⟨?_, ?_, ?_⟩
    · intro h
      rcases h with h | h <;>
        simp [delete_attachments_from_issue, hload, h]
    · simp only [delete_attachments_from_issue, hload]
      by_cases h1 : page.hasAttachmentsSection = false
      · simp [h1]
      · by_cases h2 : page.deleteButtonCount = 0
        · simp [h1, h2]
        · simp only [h1, h2, if_false]
          exact List.isEmpty_iff
    · simp only [delete_attachments_from_issue, hload]
      by_cases h1 : page.hasAttachmentsSection = false
      · simp [h1]
      · by_cases h2 : page.deleteButtonCount = 0
        · simp [h1, h2]
        · simp only [h1, h2, or_self, if_false]
          rw [deleteIssueLoop_eq R issue_id page.deleteButtonCount
            page.clickOutcome page.deleteButtonCount 0]
          refine List.filterMap_congr ?_
          intro d _
          rw [Nat.zero_add]
  · intro i
    have h := attemptDelete_none_iff (page.clickOutcome i) R 0
    simpa using h
  · intro i hfail
    have h := attemptDelete_allFail (page.clickOutcome i) R 0
      (fun j hj => by simpa using hfail j hj)
    simpa using h

theorem C5_per_ticket_delete_witness :
    delete_attachments_from_issue 3
      (TicketPage.mk (some "boom") true 1 (fun _ _ => none)) 7
      = (false, []) ∧
    delete_attachments_from_issue 3
      (TicketPage.mk none false 5 (fun _ _ => some "x")) 7 = (true, []) ∧
    delete_attachments_from_issue 3
      (TicketPage.mk none true 0 (fun _ _ => some "x")) 7 = (true, []) := by
  refine ⟨?_, ?_, ?_⟩
  · exact (C5_per_ticket_delete 3
      (TicketPage.mk (some "boom") true 1 (fun _ _ => none)) 7).1 "boom" rfl
  · exact ((C5_per_ticket_delete 3
      (TicketPage.mk none false 5 (fun _ _ => some "x")) 7).2.2.1 rfl).1
      (Or.inl rfl)
  · exact ((C5_per_ticket_delete 3
      (TicketPage.mk none true 0 (fun _ _ => some "x")) 7).2.2.1 rfl).1
      (Or.inr rfl)

/-- Demonstration pages for the batch-delete scenario: every ticket's page
loads successfully and has one attachment; ticket 2's delete click always
raises, all others succeed. -/
def demoDeletePages : Nat → TicketPage := fun n =>
  if n = 2 then ⟨none, true, 1, fun _ _ => some "timeout"⟩
  else ⟨none, true, 1, fun _ _ => none⟩

/-- C4: the batch delete orchestrator processes ticket ids in input order,
returning one boolean per input id (it never raises for an individual
ticket — the per-ticket function is total); its manual-follow-up records
are the concatenation of the per-ticket records; between successive tickets
(not after the last) it sleeps the configured delete interval when
positive; and for ids `[1,2,3]` where only ticket 2's single attachment
exhausts its retries, the result is `{1: true, 2: false, 3: true}` with
exactly one manual-follow-up record, which references ticket 2. -/
theorem C4_batch_delete (R : Nat) (interval : Rat)
    (pages : Nat → TicketPage) (ids : List Nat) :
    ((delete_attachments_from_issues R interval pages ids).results
      = ids.map (fun i =>
          (i, (delete_attachments_from_issue R (pages i) i).1))) ∧
    ((delete_attachments_from_issues R interval pages ids).manualRecords
      = ids.flatMap (fun i =>
          (delete_attachments_from_issue R (pages i) i).2)) ∧
    ((delete_attachments_from_issues R interval pages ids).sleeps
      = if 0 < interval ∧ ids ≠ [] then ids.length - 1 else 0) ∧
    (delete_attachments_from_issues 2 1 demoDeletePages [1, 2, 3]).results
      = [(1, true), (2, false), (3, true)] ∧
    (delete_attachments_from_issues 2 1 demoDeletePages
      [1, 2, 3]).manualRecords = [⟨2, 1, 1, "timeout"⟩] ∧
    (delete_attachments_from_issues 2 1 demoDeletePages [1, 2, 3]).sleeps
      = 2 := by
  exact ⟨batch_results_eq R interval pages ids,
    batch_records_eq R interval pages ids,
    batch_sleeps_eq R interval pages ids,
    by decide, by decide, by decide⟩

end RedmineVerif
